import Mathlib

/-!
Verification of the import-map resolver (Go sources under `importmap/`:
`importmap.go` and the URL-primitive file with `resolve`, `rebase`,
`sameOrigin`, `isUrl`, `isRelative`, `isPlain`).

The Go code is shallowly embedded over `List Char` (the sources only ever
handle ASCII URL strings, where Go's byte indexing agrees with character
indexing).  The relevant subset of Go's standard `net/url` package
(`Parse`, `ParseRequestURI`, `URL.String`, `URL.ResolveReference`,
`url.JoinPath`, `path.Join`, `path.Clean`) is modelled faithfully for URLs
without query, fragment, percent-escapes, userinfo or IPv6 authorities —
none of which the repository produces or consumes.  Returned Go `error`
values are modelled as `GoAbort.goError`, runtime panics (out-of-range
index or slice) as `GoAbort.panicked`.
-/

namespace ImportMapGo

/-- Go (ASCII) strings are modelled as lists of characters. -/
abbrev Str := List Char

/-- Embed a Lean string literal into the model. -/
def str (s : String) : Str := s.data

/-- Failure modes of the Go code: an `error` return value, or a runtime panic. -/
inductive GoAbort where
  | goError (msg : Str)
  | panicked (msg : Str)
deriving DecidableEq, Repr

/-- Result of a Go computation that can return an error or panic. -/
abbrev GoRes (α : Type) := Except GoAbort α

instance {ε α : Type} [DecidableEq ε] [DecidableEq α] : DecidableEq (Except ε α) := fun a b =>
  match a, b with
  | .ok x, .ok y => if h : x = y then .isTrue (by rw [h]) else .isFalse (by simp [h])
  | .error x, .error y => if h : x = y then .isTrue (by rw [h]) else .isFalse (by simp [h])
  | .ok _, .error _ => .isFalse (by simp)
  | .error _, .ok _ => .isFalse (by simp)

/-- models strings.HasPrefix s p. -/
def startsWith (s p : Str) : Bool := p.isPrefixOf s

/-- models strings.HasSuffix s p. -/
def endsWith (s p : Str) : Bool := p.isSuffixOf s

/-- Everything up to and including the last '/' of `s` (empty when `s` has
no slash); models the Go idiom `base[:strings.LastIndex(base, "/")+1]`. -/
def upToLastSlash (s : Str) : Str := (s.reverse.dropWhile (· ≠ '/')).reverse

/-- models strings.ToLower for ASCII. -/
def lowerStr (s : Str) : Str := s.map Char.toLower

def isAlphaCh (c : Char) : Bool :=
  ('a' ≤ c && c ≤ 'z') || ('A' ≤ c && c ≤ 'Z')

def isDigitCh (c : Char) : Bool := '0' ≤ c && c ≤ '9'

/-- models net/url stringContainsCTLByte. -/
def containsCTL (s : Str) : Bool := s.any (fun c => c.toNat < 0x20 || c.toNat == 0x7f)

/-- The subset of Go's `net/url.URL` exercised by the repository: scheme,
opaque part, host (including any port), path and the OmitHost flag.  The
`User`, query, fragment and raw-escaping fields are never populated by the
inputs this code handles and are omitted. -/
structure GoURL where
  scheme : Str
  opaq : Str
  host : Str
  path : Str
  omitHost : Bool
deriving DecidableEq, Repr

/-- Loop of net/url getScheme: scan scheme characters up to ':'.  The accumulator
is empty exactly at index 0, which is what the Go code tests `i == 0` for. -/
def getSchemeGo (raw : Str) : Str → Str → GoRes (Str × Str)
  | _, [] => .ok ([], raw)
  | acc, c :: cs =>
    if isAlphaCh c then getSchemeGo raw (acc ++ [c]) cs
    else if isDigitCh c || c == '+' || c == '-' || c == '.' then
      if acc.isEmpty then .ok ([], raw) else getSchemeGo raw (acc ++ [c]) cs
    else if c == ':' then
      if acc.isEmpty then .error (.goError (str "missing protocol scheme"))
      else .ok (acc, cs)
    else .ok ([], raw)

/-- models net/url getScheme. -/
def getScheme (raw : Str) : GoRes (Str × Str) := getSchemeGo raw [] raw

/-- models net/url parse(rawURL, viaRequest) for the URL subset described in
the file header (no query/fragment split, authority taken verbatim). -/
def goParse (rawURL : Str) (viaRequest : Bool) : GoRes GoURL :=
  if containsCTL rawURL then .error (.goError (str "net/url: invalid control character in URL"))
  else if rawURL = [] ∧ viaRequest then .error (.goError (str "empty url"))
  else if rawURL = str "*" then .ok ⟨[], [], [], str "*", false⟩
  else
    match getScheme rawURL with
    | .error e => .error e
    | .ok (sch, rest) =>
      let scheme := lowerStr sch
      if ¬ startsWith rest (str "/") then
        if scheme ≠ [] then .ok ⟨scheme, rest, [], [], false⟩
        else if viaRequest then .error (.goError (str "invalid URI for request"))
        else if (rest.takeWhile (· ≠ '/')).contains ':' then
          .error (.goError (str "first path segment in URL cannot contain colon"))
        else .ok ⟨scheme, [], [], rest, false⟩
      else
        if (scheme ≠ [] ∨ (¬ viaRequest ∧ ¬ startsWith rest (str "///"))) ∧ startsWith rest (str "//") then
          let auth := rest.drop 2
          match auth.findIdx? (· = '/') with
          | some k => .ok ⟨scheme, [], auth.take k, auth.drop k, false⟩
          | none => .ok ⟨scheme, [], auth, [], false⟩
        else
          .ok ⟨scheme, [], [], rest, scheme ≠ []⟩

/-- models url.Parse (viaRequest = false). -/
def urlParse (rawURL : Str) : GoRes GoURL := goParse rawURL false

/-- models strings.Join with separator "/". -/
def joinSlash (l : List Str) : Str := List.intercalate (str "/") l

/-- models net/url resolvePath (merge and remove-dot-segments).  This is the
list-based formulation of Go ≤ 1.18, semantically identical to the current
`strings.Cut` loop. -/
def resolvePath (base ref : Str) : Str :=
  let full :=
    if ref = [] then base
    else if ref.head? ≠ some '/' then upToLastSlash base ++ ref
    else ref
  if full = [] then []
  else
    let src := List.splitOn '/' full
    let dst := src.foldl (fun d e =>
      if e = str "." then d
      else if e = str ".." then d.dropLast
      else d ++ [e]) ([] : List Str)
    let dst := if src.getLast? = some (str ".") ∨ src.getLast? = some (str "..") then dst ++ [[]] else dst
    let joined := joinSlash dst
    '/' :: (if joined.head? = some '/' then joined.drop 1 else joined)

/-- models URL.String for the modelled subset (scheme, opaque, host, path,
OmitHost; `User`, query and fragment are never present). -/
def urlString (u : GoURL) : Str :=
  let buf := if u.scheme ≠ [] then u.scheme ++ [':'] else []
  if u.opaq ≠ [] then buf ++ u.opaq
  else
    let buf :=
      if u.scheme ≠ [] ∨ u.host ≠ [] then
        if u.omitHost ∧ u.host = [] then buf
        else
          let buf := if u.host ≠ [] ∨ u.path ≠ [] then buf ++ str "//" else buf
          buf ++ u.host
      else buf
    let buf := if u.path ≠ [] ∧ u.path.head? ≠ some '/' ∧ u.host ≠ [] then buf ++ [ '/' ] else buf
    let buf := if buf = [] ∧ (u.path.takeWhile (· ≠ '/')).contains ':' then buf ++ str "./" else buf
    buf ++ u.path

/-- models URL.ResolveReference (with `User` always nil and no query or
fragment in play). -/
def resolveReference (u ref : GoURL) : GoURL :=
  let r0 := if ref.scheme = [] then { ref with scheme := u.scheme } else ref
  if ref.scheme ≠ [] ∨ ref.host ≠ [] then
    { r0 with path := resolvePath ref.path [] }
  else if ref.opaq ≠ [] then
    { r0 with host := [], path := [] }
  else
    { r0 with host := u.host, path := resolvePath u.path ref.path }

/-- models path.Clean (purely lexical). -/
def pathClean (p : Str) : Str :=
  if p = [] then str "."
  else
    let rooted := p.head? = some '/'
    let segs := List.splitOn '/' p
    let dst := segs.foldl (fun d e =>
      if e = [] ∨ e = str "." then d
      else if e = str ".." then
        if d ≠ [] ∧ d.getLast? ≠ some (str "..") then d.dropLast
        else if rooted then d else d ++ [str ".."]
      else d ++ [e]) ([] : List Str)
    let out := joinSlash dst
    let out := if rooted then '/' :: out else out
    if out = [] then str "." else out

/-- models path.Join: the elements from the first non-empty one onward are
joined with '/' and cleaned; the empty string results when all are empty. -/
def pathJoin (elems : List Str) : Str :=
  match elems.dropWhile (· = []) with
  | [] => []
  | es => pathClean (joinSlash es)

/-- models URL.JoinPath. -/
def urlJoinPath (u : GoURL) (els : List Str) : GoURL :=
  let e0 := u.path
  let pair :=
    if e0.head? ≠ some '/' then
      let elems := ('/' :: e0) :: els
      (elems, (pathJoin elems).drop 1)
    else
      let elems := e0 :: els
      (elems, pathJoin elems)
  let lastE := pair.1.getLastD []
  let p := if lastE.getLast? = some '/' ∧ pair.2.getLast? ≠ some '/' then pair.2 ++ ['/'] else pair.2
  { u with path := p }

/-- models the package-level url.JoinPath(base, elem...). -/
def joinPathStr (base : Str) (els : List Str) : GoRes Str :=
  match urlParse base with
  | .error e => .error e
  | .ok u => .ok (urlString (urlJoinPath u els))

/-- models URL.Port via splitHostPort: the digit run after the final ':' of
the host, empty when the suffix is not a valid port. -/
def portOf (host : Str) : Str :=
  let afterRev := host.reverse.takeWhile (· ≠ ':')
  if afterRev.length = host.length then []
  else
    let cand := afterRev.reverse
    if cand.all isDigitCh then cand else []

/-- models Go slicing s[k:], which panics when k exceeds the length. -/
def goSliceFrom (s : Str) (k : Nat) : GoRes Str :=
  if k ≤ s.length then .ok (s.drop k)
  else .error (.panicked (str "runtime error: slice bounds out of range"))

/-- models the repository helper sameOrigin (both pointer arguments are
non-nil at every call site, so the nil guard is unreachable). -/
def sameOrigin (inputUrl baseUrl : GoURL) : Bool :=
  inputUrl.scheme == baseUrl.scheme && inputUrl.host == baseUrl.host &&
    portOf inputUrl.host == portOf baseUrl.host

/-- models the repository URL primitive resolve(inputUrl, mapUrl, rootUrl).
The unguarded byte access `inputUrl[1]` is modelled as a panic when the
input is the single character "/". -/
def resolve (inputUrl : Str) (mapUrl rootUrl : Option GoURL) : GoRes Str :=
  if startsWith inputUrl (str "/") then
    match rootUrl with
    | some root =>
      match inputUrl[1]? with
      | none => .error (.panicked (str "runtime error: index out of range"))
      | some c1 =>
        let tempUrl := if c1 = '/' then inputUrl.drop 1 else inputUrl
        joinPathStr (urlString root) [str ".", tempUrl]
    | none => .ok inputUrl
  else
    match urlParse inputUrl with
    | .error e => .error e
    | .ok u =>
      match mapUrl with
      | some m => .ok (urlString (resolveReference m u))
      | none => .ok (urlString u)

/-- Shared tail of the repository rebase after the input has been resolved
against the root or base URL. -/
def rebaseTail (base : GoURL) (rootUrl : Option GoURL) (resolved : GoURL) : GoRes Str :=
  let rs := urlString resolved
  match rootUrl with
  | some root =>
    let rootS := urlString root
    if startsWith rs rootS then
      if rootS = [] then .error (.panicked (str "runtime error: slice bounds out of range"))
      else .ok (rs.drop (rootS.length - 1))
    else if startsWith rootS rs then
      .ok ('/' :: urlString (resolveReference root resolved))
    else if sameOrigin resolved base then .ok (urlString (resolveReference base resolved))
    else .ok rs
  | none =>
    if sameOrigin resolved base then .ok (urlString (resolveReference base resolved))
    else .ok rs

/-- models the repository URL primitive rebase(inputUrl, baseUrl, rootUrl). -/
def rebase (inputUrl : Str) (baseUrl rootUrl : Option GoURL) : GoRes Str :=
  match baseUrl with
  | none => .error (.goError (str "baseUrl is nil; it must be set"))
  | some base =>
    match urlParse inputUrl with
    | .error e => .error e
    | .ok u =>
      if startsWith inputUrl (str "/") ∨ startsWith inputUrl (str "//") then
        match rootUrl with
        | none => .ok inputUrl
        | some root => rebaseTail base rootUrl (resolveReference root u)
      else
        rebaseTail base rootUrl (resolveReference base u)

/-- models isUrl: url.ParseRequestURI succeeds. -/
def isUrl (s : Str) : Bool := (goParse s true).isOk

/-- models isRelative. -/
def isRelative (s : Str) : Bool :=
  startsWith s (str "./") || startsWith s (str "../") || startsWith s (str "/")

/-- models isPlain. -/
def isPlain (s : Str) : Bool := !isRelative s && !isUrl s

/-! Go maps of the engine (`Imports`, `Scope`, `Scopes`, `Integrity`) are
modelled as association lists with unique keys.  Go's map iteration order
is unspecified; the model iterates in list order, which is one admissible
schedule (every concrete table used in a theorem below has at most one
entry, where all schedules agree). -/

/-- Association-list lookup, models `m[k]` presence. -/
def lookupA {β : Type} (t : List (Str × β)) (k : Str) : Option β :=
  match t with
  | [] => none
  | (k0, v0) :: rest => if k0 = k then some v0 else lookupA rest k

/-- models the `_, ok := m[k]` test. -/
def containsKeyA {β : Type} (t : List (Str × β)) (k : Str) : Bool := (lookupA t k).isSome

/-- models the defaulting read `m[k]` for `map[string]string`. -/
def lookupD (t : List (Str × Str)) (k : Str) : Str := (lookupA t k).getD []

/-- models the map write `m[k] = v` (replace in place, else append). -/
def insertA {β : Type} (t : List (Str × β)) (k : Str) (v : β) : List (Str × β) :=
  match t with
  | [] => [(k, v)]
  | (k0, v0) :: rest => if k0 = k then (k0, v) :: rest else (k0, v0) :: insertA rest k v

/-- models `delete(m, k)`. -/
def eraseA {β : Type} (t : List (Str × β)) (k : Str) : List (Str × β) :=
  match t with
  | [] => []
  | (k0, v0) :: rest => if k0 = k then rest else (k0, v0) :: eraseA rest k

/-- A key occurs in the table. -/
def keyMem {β : Type} (t : List (Str × β)) (k : Str) : Prop := ∃ v, (k, v) ∈ t

/-- An imports (or scope, or integrity) table. -/
abbrev Table := List (Str × Str)

/-- The import-map state (`importMap` struct). -/
structure ImportMap where
  imports : Table
  scopes : List (Str × Table)
  integrity : Table
  mapUrl : Option GoURL
  rootUrl : Option GoURL
deriving DecidableEq, Repr

/-- Loop body of getMapMatch: keys not ending in '/' or '*' are skipped;
for the rest the last character is stripped and prefix-matched against the
specifier, and a strictly longer match replaces the current one. -/
def mmStep {β : Type} (specifier : Str) (cur : Str) (kv : Str × β) : Str :=
  let m := kv.1
  let wildcard := m.getLast? = some '*'
  if ¬ (m.getLast? = some '/') ∧ ¬ wildcard then cur
  else if m.dropLast.isPrefixOf specifier then
    if cur = [] ∨ m.length > cur.length then m else cur
  else cur

/-- models getMapMatch: exact key hit wins, otherwise the longest key ending
in '/' or '*' whose last character is stripped and prefix-matched. -/
def getMapMatch {β : Type} (specifier : Str) (inputMap : List (Str × β)) : Str :=
  if containsKeyA inputMap specifier then specifier
  else inputMap.foldl (mmStep specifier) []

/-- A key qualifies for the prefix scan of getMapMatch on a specifier: it
ends in '/' or '*' and its last-character-stripped form is a string-prefix
of the specifier. -/
def qualifiesK (k s : Str) : Prop :=
  (k.getLast? = some '/' ∨ k.getLast? = some '*') ∧ k.dropLast.isPrefixOf s = true

instance (k s : Str) : Decidable (qualifiesK k s) := by unfold qualifiesK; infer_instance

/-- The scope filter of getScopeMatches: exact equality, or a '/'-terminated
scope URL that is a string-prefix of the parent URL. -/
def scopeKeep (scopeUrl parentUrl : Str) : Bool :=
  scopeUrl == parentUrl || (endsWith scopeUrl (str "/") && startsWith parentUrl scopeUrl)

/-- Candidate construction of getScopeMatches: each scope key resolved under
the map's own pair; the first resolution error aborts. -/
def buildScopeCandidates (scopes : List (Str × Table)) (mapUrl rootUrl : Option GoURL) :
    GoRes (List (Str × Str)) :=
  match scopes with
  | [] => .ok []
  | (k, _) :: rest =>
    match resolve k mapUrl rootUrl with
    | .error e => .error e
    | .ok v =>
      match buildScopeCandidates rest mapUrl rootUrl with
      | .error e => .error e
      | .ok r => .ok ((k, v) :: r)

/-- Comparison used by the sort in getScopeMatches: ascending length of the
resolved scope URL. -/
def scopeLE (a b : Str × Str) : Prop := a.2.length ≤ b.2.length

instance : DecidableRel scopeLE := fun a b => Nat.decLe a.2.length b.2.length

instance : IsTotal (Str × Str) scopeLE := ⟨fun a b => Nat.le_total a.2.length b.2.length⟩

instance : IsTrans (Str × Str) scopeLE := ⟨fun _ _ _ => Nat.le_trans⟩

/-- models getScopeMatches.  Go sorts with `sort.Slice` (unstable, strict
less on lengths); the model uses an insertion sort, one admissible outcome,
since the order among equal-length candidates is unspecified in Go. -/
def getScopeMatches (parentUrl : Str) (scopes : List (Str × Table))
    (mapUrl rootUrl : Option GoURL) : GoRes (List (Str × Str)) :=
  match buildScopeCandidates scopes mapUrl rootUrl with
  | .error e => .error e
  | .ok cands =>
    .ok ((List.insertionSort scopeLE cands).filter (fun c => scopeKeep c.2 parentUrl))

/-- The match-with-retries block of ResolveWithParent, shared verbatim by the
scope loop and the top-level table: try the current specifier; when it
misses and the specifier was URL-like, rebase and retry; when that misses
too and a root is set, rebase once more with the root dropped.  Returns the
(possibly rebased) specifier together with the matched key (empty for none),
mirroring the Go code's mutation of the `specifier` variable. -/
def tryTableRetry {β : Type} (table : List (Str × β)) (specifier : Str)
    (specifierUrl : Option GoURL) (mapUrl rootUrl : Option GoURL) : GoRes (Str × Str) :=
  let m0 := getMapMatch specifier table
  if m0 ≠ [] then .ok (specifier, m0)
  else if specifierUrl.isSome then
    match rebase specifier mapUrl rootUrl with
    | .error e => .error e
    | .ok s1 =>
      let m1 := getMapMatch s1 table
      if m1 ≠ [] then .ok (s1, m1)
      else if rootUrl.isSome then
        match rebase s1 mapUrl none with
        | .error e => .error e
        | .ok s2 => .ok (s2, getMapMatch s2 table)
      else .ok (s1, [])
  else .ok (specifier, [])

/-- The scope loop of ResolveWithParent: scopes are tried in the order of
the scope-match list; the threaded specifier carries the Go code's mutation
of `specifier` across iterations.  Returns the final specifier and, on a
hit, the scope key and matched key. -/
def scopeLoop (scopes : List (Str × Table)) (scopeMs : List (Str × Str)) (specifier : Str)
    (specifierUrl : Option GoURL) (mapUrl rootUrl : Option GoURL) :
    GoRes (Str × Option (Str × Str)) :=
  match scopeMs with
  | [] => .ok (specifier, none)
  | (scopeKey, _) :: rest =>
    match tryTableRetry ((lookupA scopes scopeKey).getD []) specifier specifierUrl mapUrl rootUrl with
    | .error e => .error e
    | .ok (s1, m) =>
      if m ≠ [] then .ok (s1, some (scopeKey, m))
      else scopeLoop scopes rest s1 specifierUrl mapUrl rootUrl

/-- Specifier classification step of ResolveWithParent: a non-plain
specifier is parsed and resolved against the parent URL, and the working
specifier becomes that absolute form. -/
def classifySpecifier (specifier : Str) (parentUrl : GoURL) : GoRes (Str × Option GoURL) :=
  if ¬ isPlain specifier then
    match urlParse specifier with
    | .error e => .error e
    | .ok u =>
      let su := resolveReference parentUrl u
      .ok (urlString su, some su)
  else .ok (specifier, none)

/-- models ResolveWithParent. -/
def resolveWithParent (i : ImportMap) (specifier0 : Str) (parentUrl : GoURL) : GoRes Str :=
  match resolve (urlString parentUrl) i.mapUrl i.rootUrl with
  | .error e => .error e
  | .ok parentUrlRaw =>
  match classifySpecifier specifier0 parentUrl with
  | .error e => .error e
  | .ok (specifier, specifierUrl) =>
  match getScopeMatches parentUrlRaw i.scopes i.mapUrl i.rootUrl with
  | .error e => .error e
  | .ok scopeMatches =>
  match scopeLoop i.scopes scopeMatches specifier specifierUrl i.mapUrl i.rootUrl with
  | .error e => .error e
  | .ok (s1, scopeHit) =>
  match scopeHit with
  | some (scopeKey, mapMatch) =>
    let target := lookupD ((lookupA i.scopes scopeKey).getD []) mapMatch
    match goSliceFrom s1 mapMatch.length with
    | .error e => .error e
    | .ok tail => resolve (target ++ tail) i.mapUrl i.rootUrl
  | none =>
    match tryTableRetry i.imports s1 specifierUrl i.mapUrl i.rootUrl with
    | .error e => .error e
    | .ok (s2, mapMatch) =>
      if mapMatch ≠ [] then
        let target := lookupD i.imports mapMatch
        match goSliceFrom s2 mapMatch.length with
        | .error e => .error e
        | .ok tail => resolve (target ++ tail) i.mapUrl i.rootUrl
      else
        match specifierUrl with
        | some su => .ok (urlString su)
        | none =>
          .error (.goError (str "unable to resolve " ++ s2 ++ str " in " ++ urlString parentUrl))

/-- models GetIntegrityValue.  The fallback lookup slices `targetRebased[2:]`
unconditionally, which panics when the rebased form is shorter than two
characters. -/
def getIntegrityValue (i : ImportMap) (target : Str) : GoRes Str :=
  match rebase target i.mapUrl i.rootUrl with
  | .error e => .error e
  | .ok targetRebased =>
    match lookupA i.integrity targetRebased with
    | some v => .ok v
    | none =>
      match goSliceFrom targetRebased 2 with
      | .error e => .error e
      | .ok key2 =>
        match lookupA i.integrity key2 with
        | some v => .ok v
        | none => .error (.goError (str "integrity not found"))

/-- The per-entry loop Rebase runs over the top-level imports table and over
every scope's table.  `origKeys` is the key set at loop entry (Go's map
iteration schedule, specialised to list order; keys inserted during the walk
are not revisited, one of the behaviours Go permits).  Values are read at
visit time.  Note both the target resolve and the target rebase use the OLD
pair `(oldMap, oldRoot)` exactly as the source does, while key rewriting
uses the NEW pair. -/
def importsLoop (origKeys : List Str) (tbl : Table)
    (oldMap oldRoot newMap newRoot : Option GoURL) : GoRes Table :=
  match origKeys with
  | [] => .ok tbl
  | k :: rest =>
    if ¬ containsKeyA tbl k then importsLoop rest tbl oldMap oldRoot newMap newRoot
    else
      match resolve (lookupD tbl k) oldMap oldRoot with
      | .error e => .error e
      | .ok resolvedTarget =>
      match rebase resolvedTarget oldMap oldRoot with
      | .error e => .error e
      | .ok newTarget =>
        let tbl := insertA tbl k newTarget
        if isPlain k then importsLoop rest tbl oldMap oldRoot newMap newRoot
        else
          match resolve k oldMap oldRoot with
          | .error e => .error e
          | .ok resolvedKey =>
          match rebase resolvedKey newMap newRoot with
          | .error e => .error e
          | .ok newKey =>
            let tbl := if newKey ≠ k then eraseA (insertA tbl newKey (lookupD tbl k)) k else tbl
            importsLoop rest tbl oldMap oldRoot newMap newRoot

/-- The scope loop of Rebase: each scope's table is rewritten by the shared
per-entry loop, then the scope key itself is resolved under the old pair and
rebased under the new pair, moving the table on a key change. -/
def scopesLoop (origKeys : List Str) (scopes : List (Str × Table))
    (oldMap oldRoot newMap newRoot : Option GoURL) : GoRes (List (Str × Table)) :=
  match origKeys with
  | [] => .ok scopes
  | k :: rest =>
    if ¬ containsKeyA scopes k then scopesLoop rest scopes oldMap oldRoot newMap newRoot
    else
      let tab := (lookupA scopes k).getD []
      match importsLoop (tab.map Prod.fst) tab oldMap oldRoot newMap newRoot with
      | .error e => .error e
      | .ok tab2 =>
        let scopes := insertA scopes k tab2
        match resolve k oldMap oldRoot with
        | .error e => .error e
        | .ok resolvedKey =>
        match rebase resolvedKey newMap newRoot with
        | .error e => .error e
        | .ok newScope =>
          let scopes :=
            if newScope ≠ k then eraseA (insertA scopes newScope ((lookupA scopes k).getD [])) k
            else scopes
          scopesLoop rest scopes oldMap oldRoot newMap newRoot

/-- The integrity loop of Rebase: each stored value is resolved and rebased
under the OLD pair, and when the entry's key differs from its value the slot
keyed by the value is read (defaulting to the empty string for the usual
case of an absent hash-keyed slot) into the key slot, then deleted. -/
def integrityLoop (origKeys : List Str) (tbl : Table) (oldMap oldRoot : Option GoURL) :
    GoRes Table :=
  match origKeys with
  | [] => .ok tbl
  | k :: rest =>
    if ¬ containsKeyA tbl k then integrityLoop rest tbl oldMap oldRoot
    else
      let v := lookupD tbl k
      match resolve v oldMap oldRoot with
      | .error e => .error e
      | .ok resolvedValue =>
      match rebase resolvedValue oldMap oldRoot with
      | .error e => .error e
      | .ok newValue =>
        let tbl := insertA tbl k newValue
        let tbl := if k ≠ v then eraseA (insertA tbl k (lookupD tbl v)) v else tbl
        integrityLoop rest tbl oldMap oldRoot

/-- models Rebase(mapUrl, rootUrl), including the root-inference rule for a
nil rootUrl argument. -/
def rebaseMap (i : ImportMap) (mapUrl rootUrl : Option GoURL) : GoRes ImportMap :=
  match mapUrl with
  | none => .error (.goError (str "invalid argument: mapUrl is nil"))
  | some mu =>
    let rootUrl2 : Option GoURL :=
      match rootUrl, i.mapUrl with
      | none, some imu =>
        if urlString mu = urlString imu then some imu
        else if i.rootUrl = none ∨ (mu.scheme ≠ str "https" ∧ mu.scheme ≠ str "http") then none
        else some (resolveReference mu ⟨[], [], [], str "/", false⟩)
      | r, _ => r
    match importsLoop (i.imports.map Prod.fst) i.imports i.mapUrl i.rootUrl (some mu) rootUrl2 with
    | .error e => .error e
    | .ok imports2 =>
    match scopesLoop (i.scopes.map Prod.fst) i.scopes i.mapUrl i.rootUrl (some mu) rootUrl2 with
    | .error e => .error e
    | .ok scopes2 =>
    match integrityLoop (i.integrity.map Prod.fst) i.integrity i.mapUrl i.rootUrl with
    | .error e => .error e
    | .ok integrity2 =>
      .ok { imports := imports2, scopes := scopes2, integrity := integrity2,
            mapUrl := some mu, rootUrl := rootUrl2 }

/-- models Extend(importMap, overrideScopes): copy the other map's tables in,
then renormalise via Rebase(i.mapUrl, nil). -/
def extend (i other : ImportMap) (overrideScopes : Bool) : GoRes ImportMap :=
  let imports := other.imports.foldl (fun t kv => insertA t kv.1 kv.2) i.imports
  let scopes :=
    if overrideScopes then other.scopes.foldl (fun t kv => insertA t kv.1 kv.2) i.scopes
    else other.scopes.foldl (fun t kv =>
      let cur := (lookupA t kv.1).getD []
      insertA t kv.1 (kv.2.foldl (fun s p => insertA s p.1 p.2) cur)) i.scopes
  let integrity := other.integrity.foldl (fun t kv => insertA t kv.1 kv.2) i.integrity
  rebaseMap { i with imports := imports, scopes := scopes, integrity := integrity } i.mapUrl none

/-- Modelled from the spec words of claim C8 (the claim as stated): after
canonicalising the target, the retry key is the canonical form with a
leading "./" stripped — so it equals the canonical form itself when there
is no leading "./". -/
def getIntegrityValueClaimC8 (i : ImportMap) (target : Str) : GoRes Str :=
  match rebase target i.mapUrl i.rootUrl with
  | .error e => .error e
  | .ok c =>
    match lookupA i.integrity c with
    | some v => .ok v
    | none =>
      let c2 := if startsWith c (str "./") then c.drop 2 else c
      match lookupA i.integrity c2 with
      | some v => .ok v
      | none => .error (.goError (str "integrity not found"))

/-- Modelled from the amended wording of claim C8: the retry key is the
canonical form with its first two characters dropped, whatever they are;
the amendment presupposes a canonical form of length at least two (shorter
forms make the code fault, the subject of claim C10). -/
def getIntegrityValueAmendedC8 (i : ImportMap) (target : Str) : GoRes Str :=
  match rebase target i.mapUrl i.rootUrl with
  | .error e => .error e
  | .ok c =>
    match lookupA i.integrity c with
    | some v => .ok v
    | none =>
      match lookupA i.integrity (c.drop 2) with
      | some v => .ok v
      | none => .error (.goError (str "integrity not found"))

/-! Concrete fixtures used by the closed theorems below.  Each table has at
most one entry, so the modelled iteration schedule is the unique one Go can
take. -/

/-- The URL https://site.com/ in parsed form. -/
def siteURL : GoURL := ⟨str "https", [], str "site.com", str "/", false⟩

/-- The URL https://other.com/ in parsed form. -/
def otherURL : GoURL := ⟨str "https", [], str "other.com", str "/", false⟩

/-- The URL file:///w/ in parsed form. -/
def fileWURL : GoURL := ⟨str "file", [], [], str "/w/", false⟩

/-- The URL file:///test/ in parsed form. -/
def fileTestURL : GoURL := ⟨str "file", [], [], str "/test/", false⟩

/-- Canonicity of an absolute URL string under a pair, for claim C6: the
string parses to a scheme-carrying URL whose printed form is the string
itself, its path contains no dot segments to normalise away, it does not
begin with '/', and rebasing it under the pair returns it unchanged. -/
def isCanonicalAbs (u : Str) (mapUrl rootUrl : Option GoURL) : Bool :=
  match urlParse u with
  | .error _ => false
  | .ok p =>
    decide (p.scheme ≠ []) && decide (urlString p = u) &&
      decide (resolvePath p.path [] = p.path) && decide (u.head? ≠ some '/') &&
      decide (rebase u mapUrl rootUrl = .ok u)

/-- Fixture for claim C1: a canonical map at https://site.com/ with one
plain-keyed import whose target is stored in root-relative form. -/
def c1Map : ImportMap := ⟨[(str "a", str "/x.js")], [], [], some siteURL, some siteURL⟩

/-- Fixture for claim C2: a canonical map at https://site.com/ with a single
integrity entry. -/
def c2Map : ImportMap := ⟨[], [], [(str "/x.js", str "sha384-abc")], some siteURL, some siteURL⟩

/-- Fixture for claim C7: a map at file:///test/ with no root set, as the
constructor produces for any non-network declaring location. -/
def c7Map : ImportMap := ⟨[], [], [], some fileTestURL, none⟩

/-- Fixture for claim C7: an empty map merged into the receiver. -/
def c7Other : ImportMap := ⟨[], [], [], none, none⟩

/-- Fixture for claim C8: a map whose integrity table is keyed by the
canonical target with its first two characters dropped — a key only the
unconditional two-character slice can reach, never "./"-stripping. -/
def c8Map : ImportMap :=
  ⟨[], [], [(str "tps://other.com/lib.js", str "sha384-X")], some siteURL, none⟩

/-- Fixture for claim C10: a canonical map at https://site.com/ with an
empty integrity table. -/
def c10Map : ImportMap := ⟨[], [], [], some siteURL, some siteURL⟩

/-- Fixture for the C3 witness: one prefix key, one wildcard key and one
plain key. -/
def c3T : Table := [(str "a/", str "t1"), (str "ab", str "t2"), (str "a*", str "t3")]

/-- Fixture for the C4 witness: a path scope and a cross-origin scope. -/
def c4Scopes : List (Str × Table) :=
  [(str "https://another.com/", [(str "/url.js", str "/s.js")]), (str "/a/", [])]

/-- Fixture for the C5 witness: a map with no entries at all. -/
def c5Map : ImportMap := ⟨[], [], [], some siteURL, some siteURL⟩

/-!  Theorems.  -/

/-- C9: the claim asserts that the URL primitive resolve is total for
root-relative inputs — in particular on the one-character input "/" with a
root set.  The code refutes it: `inputUrl[1]` is read before any length
check, so resolve("/", map, root) with a non-nil root faults with an
index-out-of-range panic instead of returning a location. -/
theorem c9_resolve_panics_on_single_slash :
    resolve (str "/") (some siteURL) (some siteURL) =
      .error (.panicked (str "runtime error: index out of range")) := by decide

/-- C10: the claim asserts that the fallback lookup of GetIntegrityValue
never indexes out of bounds even for rebased forms "" or "/".  The code
refutes it: for target "/" under the pair (https://site.com/,
https://site.com/) the rebased form is the one-character string "/", and
the unconditional slice `targetRebased[2:]` faults with a
slice-out-of-range panic. -/
theorem c10_getIntegrityValue_panics_on_short_rebased_form :
    rebase (str "/") c10Map.mapUrl c10Map.rootUrl = .ok (str "/") ∧
    getIntegrityValue c10Map (str "/") =
      .error (.panicked (str "runtime error: slice bounds out of range")) := by decide

/-- C1: the claim says Rebase stores every import target (and integrity
value) as the old-pair resolution rebased onto the NEW pair.  The code
stores the old-pair resolution rebased back onto the OLD pair: relocating
the canonical map at (https://site.com/, https://site.com/) to file:///w/
(inferred new root: none) leaves the target "/x.js" in old-frame compact
form, while the claim requires the new-pair form "https://site.com/x.js". -/
theorem c1_rebase_keeps_targets_in_old_frame :
    (rebaseMap c1Map (some fileWURL) none).map ImportMap.imports =
      .ok [(str "a", str "/x.js")] ∧
    (resolve (str "/x.js") c1Map.mapUrl c1Map.rootUrl).bind
        (fun t => rebase t (some fileWURL) none) =
      .ok (str "https://site.com/x.js") ∧
    str "/x.js" ≠ str "https://site.com/x.js" := by decide

/-- C2: the relocation round trip A → B → A does not reproduce the tables.
For a fully canonical map at A = https://site.com/ holding the single
integrity entry ("/x.js" ↦ "sha384-abc"), relocating to B =
https://other.com/ and back yields ("/x.js" ↦ ""): the integrity loop of
Rebase overwrites each entry with the table slot keyed by the entry's old
value — a hash that is never a key — wiping the stored hash. -/
theorem c2_roundtrip_wipes_integrity :
    c2Map.integrity = [(str "/x.js", str "sha384-abc")] ∧
    ((rebaseMap c2Map (some otherURL) none).bind
        (fun m => rebaseMap m (some siteURL) none)).map ImportMap.integrity =
      .ok [(str "/x.js", [])] := by decide

/-- C7 counterexample: Extend does not leave rootUrl unchanged.  For a map
at file:///test/ with rootUrl unset (exactly what the constructor builds
for a non-network declaring location), extending by an empty map succeeds
and sets rootUrl to the declaring location file:///test/ — the
renormalising Rebase(mapUrl, nil) call infers the root as the current
mapUrl, because the new and old declaring locations coincide. -/
theorem c7_counterexample_rootUrl_changes :
    c7Map.rootUrl = none ∧
    (extend c7Map c7Other false).map ImportMap.rootUrl = .ok (some fileTestURL) := by decide

/-- C8 counterexample: the fallback lookup is not a "./"-strip.  With the
map at https://site.com/ (no root), the canonical form of
"https://other.com/lib.js" is itself — it has no leading "./", so under the
claim's description the retry would repeat the same key and miss, yielding
integrity-not-found.  The code instead drops the first two characters
unconditionally and finds the entry stored under "tps://other.com/lib.js". -/
theorem c8_counterexample_not_dot_strip :
    getIntegrityValue c8Map (str "https://other.com/lib.js") = .ok (str "sha384-X") ∧
    getIntegrityValueClaimC8 c8Map (str "https://other.com/lib.js") =
      .error (.goError (str "integrity not found")) := by decide

/-- Helper: a string starts with "/" exactly when its first character is '/'. -/
theorem startsWith_slash_iff (s : Str) : startsWith s (str "/") = true ↔ s.head? = some '/' := by
  cases s with
  | nil => simp [startsWith, str, List.isPrefixOf]
  | cons c cs =>
    simp [startsWith, str, List.isPrefixOf]
    constructor
    · intro h; rw [h]
    · intro h; rw [h]

/-- C6: for every absolute URL string that is canonical under a pair
(scheme-carrying, printed form equal to itself, dot-free path, not
'/'-led, and a fixed point of rebase under the pair), resolving it under
the pair and rebasing the result under the same pair returns the string
unchanged. -/
theorem c6_canonical_roundtrip (u : Str) (mapUrl rootUrl : Option GoURL)
    (h : isCanonicalAbs u mapUrl rootUrl = true) :
    (resolve u mapUrl rootUrl).bind (fun a => rebase a mapUrl rootUrl) = .ok u := by
  unfold isCanonicalAbs at h
  cases hp : urlParse u with
  | error e => rw [hp] at h; exact absurd h (by simp)
  | ok p =>
    rw [hp] at h
    simp only [Bool.and_eq_true, decide_eq_true_eq] at h
    obtain ⟨⟨⟨⟨hsch, hstr⟩, hnorm⟩, hhead⟩, hreb⟩ := h
    have hstart : startsWith u (str "/") = false := by
      rw [Bool.eq_false_iff]
      intro hc
      exact hhead ((startsWith_slash_iff u).mp hc)
    have hres : resolve u mapUrl rootUrl = .ok u := by
      unfold resolve
      rw [hstart]
      simp only [Bool.false_eq_true, if_false]
      rw [hp]
      cases mapUrl with
      | none => simp [hstr]
      | some m =>
        have hrr : resolveReference m p = p := by
          unfold resolveReference
          rw [if_neg hsch]
          rw [if_pos (Or.inl hsch)]
          rw [hnorm]
        simp [hrr, hstr]
    rw [hres]
    simpa using hreb

/-- Witness for C6 at the canonical cross-origin URL
"https://other.com/x.js" under the pair (https://site.com/, no root). -/
theorem c6_witness :
    isCanonicalAbs (str "https://other.com/x.js") (some siteURL) none = true ∧
    (resolve (str "https://other.com/x.js") (some siteURL) none).bind
        (fun a => rebase a (some siteURL) none) = .ok (str "https://other.com/x.js") :=
  ⟨by decide, c6_canonical_roundtrip _ _ _ (by decide)⟩

/-- C7 (amended): after a successful Extend the receiver's rootUrl equals
its declaring location mapUrl — not its previous rootUrl, unless that
already equalled mapUrl.  The renormalising Rebase(i.mapUrl, nil) call
infers the root as the current declaring location because the new and old
declaring locations coincide; the declaring location itself is unchanged. -/
theorem c7_extend_sets_root_to_declaring (i other : ImportMap) (ov : Bool) (res : ImportMap)
    (h : extend i other ov = .ok res) :
    res.mapUrl = i.mapUrl ∧ res.rootUrl = i.mapUrl := by
  unfold extend rebaseMap at h
  cases hm : i.mapUrl with
  | none => rw [hm] at h; exact absurd h (by simp)
  | some mu =>
    rw [hm] at h
    simp only [hm, if_pos rfl] at h
    split at h
    · exact absurd h (by simp)
    · split at h
      · exact absurd h (by simp)
      · split at h
        · exact absurd h (by simp)
        · simp only [Except.ok.injEq] at h
          subst h
          exact ⟨rfl, rfl⟩

/-- Witness for C7 at the fixture map: extending the file:///test/ map (no
root) by the empty map succeeds, and the result's rootUrl is the declaring
location. -/
theorem c7_witness :
    ({ imports := [], scopes := [], integrity := [],
       mapUrl := some fileTestURL, rootUrl := some fileTestURL } : ImportMap).mapUrl
        = c7Map.mapUrl ∧
    ({ imports := [], scopes := [], integrity := [],
       mapUrl := some fileTestURL, rootUrl := some fileTestURL } : ImportMap).rootUrl
        = c7Map.mapUrl :=
  c7_extend_sets_root_to_declaring c7Map c7Other false _ (by decide)

/-- Helper for C3: a qualifying key is never the empty string. -/
theorem qualifiesK_ne_nil {k s : Str} (h : qualifiesK k s) : k ≠ [] := by
  rcases h.1 with h1 | h1 <;> intro he <;> subst he <;> simp at h1

/-- Helper for C3: the loop body on a qualifying key keeps the longer of
the current match and the key (the key on ties only when none is held). -/
theorem mmStep_of_qual {β : Type} {s : Str} {kv : Str × β} (cur : Str) (hq : qualifiesK kv.1 s) :
    mmStep s cur kv = (if cur = [] ∨ kv.1.length > cur.length then kv.1 else cur) := by
  unfold mmStep
  obtain ⟨h1, h2⟩ := hq
  rw [if_neg (by tauto), if_pos h2]

/-- Helper for C3: the loop body ignores non-qualifying keys. -/
theorem mmStep_of_not_qual {β : Type} {s : Str} {kv : Str × β} (cur : Str)
    (hq : ¬ qualifiesK kv.1 s) : mmStep s cur kv = cur := by
  unfold mmStep
  unfold qualifiesK at hq
  push_neg at hq
  by_cases h1 : kv.1.getLast? = some '/' ∨ kv.1.getLast? = some '*'
  · rw [if_neg (by tauto)]
    rw [if_neg (by simpa using hq h1)]
  · rw [if_pos (by tauto)]

/-- Invariant of the getMapMatch scan: starting from an empty or qualifying
current match, the fold returns the start value or a qualifying key of the
table, never shrinks, dominates the length of every qualifying key, and is
empty only when no key qualifies. -/
theorem mmFold_spec {β : Type} (s : Str) (T : List (Str × β)) :
    ∀ cur : Str, (cur = [] ∨ qualifiesK cur s) →
    ((T.foldl (mmStep s) cur = cur ∨
        (keyMem T (T.foldl (mmStep s) cur) ∧ qualifiesK (T.foldl (mmStep s) cur) s)) ∧
     cur.length ≤ (T.foldl (mmStep s) cur).length ∧
     (∀ k, keyMem T k → qualifiesK k s → k.length ≤ (T.foldl (mmStep s) cur).length) ∧
     (T.foldl (mmStep s) cur = [] → cur = [] ∧ ∀ k, keyMem T k → ¬ qualifiesK k s)) := by
  induction T with
  | nil =>
    intro cur _
    refine ⟨Or.inl rfl, Nat.le_refl _, ?_, ?_⟩
    · intro k hk; exact absurd hk (by simp [keyMem])
    · intro h; exact ⟨h, by simp [keyMem]⟩
  | cons kv rest ih =>
    intro cur hc
    simp only [List.foldl_cons]
    by_cases hq : qualifiesK kv.1 s
    · rw [mmStep_of_qual cur hq]
      by_cases hrep : cur = [] ∨ kv.1.length > cur.length
      · rw [if_pos hrep]
        have hinv : kv.1 = [] ∨ qualifiesK kv.1 s := Or.inr hq
        obtain ⟨ha, hb, hcmax, hd⟩ := ih kv.1 hinv
        refine ⟨?_, ?_, ?_, ?_⟩
        · rcases ha with ha | ⟨hm, hqr⟩
          · exact Or.inr ⟨⟨kv.2, by rw [ha]; exact List.mem_cons_self _ _⟩, by rw [ha]; exact hq⟩
          · exact Or.inr ⟨⟨hm.choose, List.mem_cons_of_mem _ hm.choose_spec⟩, hqr⟩
        · calc cur.length ≤ kv.1.length := by
                rcases hrep with h | h
                · simp [h]
                · exact Nat.le_of_lt h
               _ ≤ _ := hb
        · intro k hk hkq
          obtain ⟨v, hv⟩ := hk
          rcases List.mem_cons.mp hv with he | hm
          · have : k = kv.1 := congrArg Prod.fst he
            rw [this]; exact hb
          · exact hcmax k ⟨v, hm⟩ hkq
        · intro hz
          exact absurd (hd hz).1 (qualifiesK_ne_nil hq)
      · rw [if_neg hrep]
        push_neg at hrep
        obtain ⟨hcne, hlen⟩ := hrep
        obtain ⟨ha, hb, hcmax, hd⟩ := ih cur hc
        refine ⟨?_, hb, ?_, ?_⟩
        · rcases ha with ha | hx
          · exact Or.inl ha
          · exact Or.inr ⟨⟨hx.1.choose, List.mem_cons_of_mem _ hx.1.choose_spec⟩, hx.2⟩
        · intro k hk hkq
          obtain ⟨v, hv⟩ := hk
          rcases List.mem_cons.mp hv with he | hm
          · have : k = kv.1 := congrArg Prod.fst he
            rw [this]; exact Nat.le_trans hlen hb
          · exact hcmax k ⟨v, hm⟩ hkq
        · intro hz
          obtain ⟨hz1, hz2⟩ := hd hz
          exact absurd hz1 hcne
    · rw [mmStep_of_not_qual cur hq]
      obtain ⟨ha, hb, hcmax, hd⟩ := ih cur hc
      refine ⟨?_, hb, ?_, ?_⟩
      · rcases ha with ha | hx
        · exact Or.inl ha
        · exact Or.inr ⟨⟨hx.1.choose, List.mem_cons_of_mem _ hx.1.choose_spec⟩, hx.2⟩
      · intro k hk hkq
        obtain ⟨v, hv⟩ := hk
        rcases List.mem_cons.mp hv with he | hm
        · have : k = kv.1 := congrArg Prod.fst he
          exact absurd hkq (by rw [this]; exact hq)
        · exact hcmax k ⟨v, hm⟩ hkq
      · intro hz
        obtain ⟨hz1, hz2⟩ := hd hz
        refine ⟨hz1, ?_⟩
        intro k hk
        obtain ⟨v, hv⟩ := hk
        rcases List.mem_cons.mp hv with he | hm
        · have : k = kv.1 := congrArg Prod.fst he
          rw [this]; exact hq
        · exact hz2 k ⟨v, hm⟩

/-- C3: getMapMatch returns the specifier itself whenever it is an exact
key, regardless of any prefix keys; otherwise it returns the empty string
exactly when no key ends in '/' or '*' with its stripped form a prefix of
the specifier, and a non-empty result is such a qualifying key of the table
of maximal length. -/
theorem c3_getMapMatch_characterization {β : Type} (s : Str) (T : List (Str × β)) :
    (containsKeyA T s = true → getMapMatch s T = s) ∧
    (containsKeyA T s = false →
      ((getMapMatch s T = [] → ∀ k, keyMem T k → ¬ qualifiesK k s) ∧
       (getMapMatch s T ≠ [] →
         keyMem T (getMapMatch s T) ∧ qualifiesK (getMapMatch s T) s ∧
         ∀ k, keyMem T k → qualifiesK k s → k.length ≤ (getMapMatch s T).length))) := by
  constructor
  · intro h; unfold getMapMatch; rw [if_pos h]
  · intro h
    have hgm : getMapMatch s T = T.foldl (mmStep s) [] := by
      unfold getMapMatch; rw [if_neg (by simp [h])]
    obtain ⟨ha, _, hcmax, hd⟩ := mmFold_spec s T [] (Or.inl rfl)
    rw [hgm]
    constructor
    · intro hz; exact (hd hz).2
    · intro hne
      rcases ha with ha | ⟨hm, hq⟩
      · exact absurd ha hne
      · exact ⟨hm, hq, hcmax⟩

/-- Witness for C3 on the three-key fixture table and specifier "a/x": the
computed match is a qualifying key of the table of maximal length. -/
theorem c3_witness :
    keyMem c3T (getMapMatch (str "a/x") c3T) ∧
    qualifiesK (getMapMatch (str "a/x") c3T) (str "a/x") ∧
    (∀ k, keyMem c3T k → qualifiesK k (str "a/x") →
      k.length ≤ (getMapMatch (str "a/x") c3T).length) :=
  ((c3_getMapMatch_characterization (str "a/x") c3T).2 (by decide)).2 (by decide)

/-- Helper for C4: membership in the candidate list built by
getScopeMatches is exactly being a scope key together with its successful
resolution under the map's own pair. -/
theorem buildScopeCandidates_mem_iff {scopes : List (Str × Table)} {mapUrl rootUrl : Option GoURL}
    {cands : List (Str × Str)} (h : buildScopeCandidates scopes mapUrl rootUrl = .ok cands)
    (t : Str × Str) :
    t ∈ cands ↔ (keyMem scopes t.1 ∧ resolve t.1 mapUrl rootUrl = .ok t.2) := by
  obtain ⟨t1, t2⟩ := t
  induction scopes generalizing cands with
  | nil =>
    unfold buildScopeCandidates at h
    simp only [Except.ok.injEq] at h
    subst h
    simp [keyMem]
  | cons kv rest ih =>
    unfold buildScopeCandidates at h
    cases hr : resolve kv.1 mapUrl rootUrl with
    | error e => rw [hr] at h; exact absurd h (by simp)
    | ok v =>
      rw [hr] at h
      cases hrest : buildScopeCandidates rest mapUrl rootUrl with
      | error e => rw [hrest] at h; exact absurd h (by simp)
      | ok r =>
        rw [hrest] at h
        simp only [Except.ok.injEq] at h
        subst h
        have ihr := ih hrest
        constructor
        · intro ht
          rcases List.mem_cons.mp ht with he | hm
          · have he1 : t1 = kv.1 := congrArg Prod.fst he
            have he2 : t2 = v := congrArg Prod.snd he
            subst he1
            subst he2
            exact ⟨⟨kv.2, List.mem_cons_self _ _⟩, hr⟩
          · obtain ⟨⟨w, hw⟩, hres⟩ := (ihr).mp hm
            exact ⟨⟨w, List.mem_cons_of_mem _ hw⟩, hres⟩
        · rintro ⟨⟨w, hw⟩, hres⟩
          rcases List.mem_cons.mp hw with he | hm
          · have h1 : t1 = kv.1 := congrArg Prod.fst he
            rw [h1] at hres
            rw [hr] at hres
            simp only [Except.ok.injEq] at hres
            have ht : (t1, t2) = (kv.1, v) := by rw [h1, hres]
            rw [ht]
            exact List.mem_cons_self _ _
          · exact List.mem_cons_of_mem _ (ihr.mpr ⟨⟨w, hm⟩, hres⟩)

/-- C4: a successful getScopeMatches returns exactly the scopes whose
absolute location (scope key resolved under the map's own pair) equals the
canonical parent location or ends in '/' and is a string-prefix of it, in
ascending order of the absolute location's length. -/
theorem c4_getScopeMatches_characterization (parentUrl : Str) (scopes : List (Str × Table))
    (mapUrl rootUrl : Option GoURL) (res : List (Str × Str))
    (h : getScopeMatches parentUrl scopes mapUrl rootUrl = .ok res) :
    (∀ t : Str × Str, t ∈ res ↔
       (keyMem scopes t.1 ∧ resolve t.1 mapUrl rootUrl = .ok t.2 ∧
        scopeKeep t.2 parentUrl = true)) ∧
    List.Sorted scopeLE res := by
  unfold getScopeMatches at h
  cases hb : buildScopeCandidates scopes mapUrl rootUrl with
  | error e => rw [hb] at h; exact absurd h (by simp)
  | ok cands =>
    rw [hb] at h
    simp only [Except.ok.injEq] at h
    subst h
    constructor
    · intro t
      rw [List.mem_filter]
      rw [(List.perm_insertionSort scopeLE cands).mem_iff]
      rw [buildScopeCandidates_mem_iff hb t]
      tauto
    · exact List.Pairwise.filter _ (List.sorted_insertionSort scopeLE cands)

/-- Witness for C4 on the two-scope fixture with parent
https://site.com/a/b.js: only the path scope /a/ (absolute location
https://site.com/a/) is kept, and the result is length-sorted. -/
theorem c4_witness :
    ((str "/a/", str "https://site.com/a/") ∈ [(str "/a/", str "https://site.com/a/")] ↔
      (keyMem c4Scopes (str "/a/") ∧
       resolve (str "/a/") (some siteURL) (some siteURL) = .ok (str "https://site.com/a/") ∧
       scopeKeep (str "https://site.com/a/") (str "https://site.com/a/b.js") = true)) ∧
    List.Sorted scopeLE [(str "/a/", str "https://site.com/a/")] := by
  have h := c4_getScopeMatches_characterization (str "https://site.com/a/b.js") c4Scopes
    (some siteURL) (some siteURL) [(str "/a/", str "https://site.com/a/")] (by decide)
  exact ⟨h.1 _, h.2⟩

/-- Helper for C5: for a plain specifier (no saved specifier URL) the retry
block performs the single table lookup and never rewrites the specifier. -/
theorem tryTableRetry_noUrl {β : Type} (table : List (Str × β)) (s : Str)
    (mapUrl rootUrl : Option GoURL) :
    tryTableRetry table s none mapUrl rootUrl = .ok (s, getMapMatch s table) := by
  unfold tryTableRetry
  by_cases h : getMapMatch s table = []
  · rw [h]; simp
  · simp [h]

/-- Helper for C5: with no saved specifier URL the scope loop leaves the
specifier unchanged. -/
theorem scopeLoop_noUrl_keeps_specifier (scopes : List (Str × Table)) (ms : List (Str × Str))
    (s : Str) (mapUrl rootUrl : Option GoURL) (s1 : Str) (hit : Option (Str × Str))
    (h : scopeLoop scopes ms s none mapUrl rootUrl = .ok (s1, hit)) : s1 = s := by
  induction ms generalizing s with
  | nil =>
    unfold scopeLoop at h
    simp only [Except.ok.injEq, Prod.mk.injEq] at h
    exact h.1.symm
  | cons m rest ih =>
    unfold scopeLoop at h
    rw [tryTableRetry_noUrl] at h
    dsimp only at h
    by_cases hm : getMapMatch s ((lookupA scopes m.1).getD []) ≠ []
    · rw [if_pos hm] at h
      simp only [Except.ok.injEq, Prod.mk.injEq] at h
      exact h.1.symm
    · rw [if_neg hm] at h
      exact ih s h

/-- C5: when the resolution pipeline finds no match — the scope loop ends
without a hit and the top-level retry block ends with the empty match —
ResolveWithParent returns the saved absolute form of a non-plain specifier
unchanged, and fails for a plain specifier with the unresolved-specifier
error naming the original specifier and the parent location. -/
theorem c5_unmatched_passthrough_or_error (i : ImportMap) (specifier0 : Str) (parentUrl : GoURL)
    (praw : Str) (sw : Str × Option GoURL) (sms : List (Str × Str)) (s1 s2 : Str)
    (h0 : resolve (urlString parentUrl) i.mapUrl i.rootUrl = .ok praw)
    (h1 : classifySpecifier specifier0 parentUrl = .ok sw)
    (h2 : getScopeMatches praw i.scopes i.mapUrl i.rootUrl = .ok sms)
    (h3 : scopeLoop i.scopes sms sw.1 sw.2 i.mapUrl i.rootUrl = .ok (s1, none))
    (h4 : tryTableRetry i.imports s1 sw.2 i.mapUrl i.rootUrl = .ok (s2, [])) :
    resolveWithParent i specifier0 parentUrl =
      (match sw.2 with
       | some su => .ok (urlString su)
       | none => .error (.goError
           (str "unable to resolve " ++ specifier0 ++ str " in " ++ urlString parentUrl))) := by
  obtain ⟨spec1, su1⟩ := sw
  dsimp only at h3 h4 ⊢
  unfold resolveWithParent
  rw [h0]
  dsimp only
  rw [h1]
  dsimp only
  rw [h2]
  dsimp only
  rw [h3]
  dsimp only
  rw [h4]
  dsimp only
  rw [if_neg (by simp)]
  cases su1 with
  | some su => rfl
  | none =>
    have hplain : spec1 = specifier0 := by
      unfold classifySpecifier at h1
      by_cases hp : isPlain specifier0 = true
      · rw [if_neg (by simp [hp])] at h1
        simp only [Except.ok.injEq, Prod.mk.injEq] at h1
        exact h1.1.symm
      · rw [if_pos (by simpa using hp)] at h1
        cases hu : urlParse specifier0 with
        | error e => rw [hu] at h1; exact absurd h1 (by simp)
        | ok u => rw [hu] at h1; simp at h1
    have hs1 : s1 = spec1 := scopeLoop_noUrl_keeps_specifier _ _ _ _ _ _ _ h3
    have hs2 : s2 = s1 := by
      rw [tryTableRetry_noUrl] at h4
      simp only [Except.ok.injEq, Prod.mk.injEq] at h4
      exact h4.1.symm
    rw [hs2, hs1, hplain]

/-- Witness for C5 on the empty map at (https://site.com/,
https://site.com/): the unmapped relative specifier ./lib/a.js passes
through as https://site.com/lib/a.js, and the unmapped plain specifier
react fails with the unresolved-specifier error. -/
theorem c5_witness :
    resolveWithParent c5Map (str "./lib/a.js") siteURL = .ok (str "https://site.com/lib/a.js") ∧
    resolveWithParent c5Map (str "react") siteURL =
      .error (.goError (str "unable to resolve " ++ str "react" ++ str " in "
        ++ urlString siteURL)) := by
  constructor
  · exact (c5_unmatched_passthrough_or_error c5Map (str "./lib/a.js") siteURL
      (str "https://site.com/")
      (str "https://site.com/lib/a.js",
        some ⟨str "https", [], str "site.com", str "/lib/a.js", false⟩)
      [] (str "https://site.com/lib/a.js") (str "/lib/a.js")
      (by decide) (by decide) (by decide) (by decide) (by decide)).trans (by decide)
  · exact (c5_unmatched_passthrough_or_error c5Map (str "react") siteURL
      (str "https://site.com/") (str "react", none) [] (str "react") (str "react")
      (by decide) (by decide) (by decide) (by decide) (by decide)).trans (by decide)

/-- C8 (amended): after canonicalising the target, GetIntegrityValue
consults the table under the canonical key and, on a miss, retries under
the canonical form with its first two characters dropped — which coincides
with "./"-stripping exactly when the canonical form starts with "./" — and
reports integrity-not-found exactly when both lookups miss; canonical
forms shorter than two characters instead fault (claim C10). -/
theorem c8_amended_two_character_drop (i : ImportMap) (target c : Str)
    (hc : rebase target i.mapUrl i.rootUrl = .ok c) (hlen : 2 ≤ c.length) :
    getIntegrityValue i target = getIntegrityValueAmendedC8 i target ∧
    (startsWith c (str "./") = true →
      getIntegrityValueAmendedC8 i target = getIntegrityValueClaimC8 i target) := by
  constructor
  · unfold getIntegrityValue getIntegrityValueAmendedC8
    rw [hc]
    dsimp only
    cases h1 : lookupA i.integrity c with
    | some v => rfl
    | none =>
      have hslice : goSliceFrom c 2 = .ok (c.drop 2) := by
        unfold goSliceFrom
        rw [if_pos hlen]
      rw [hslice]
  · intro hpre
    unfold getIntegrityValueAmendedC8 getIntegrityValueClaimC8
    rw [hc]
    dsimp only
    cases h1 : lookupA i.integrity c with
    | some v => rfl
    | none =>
      dsimp only
      rw [if_pos hpre]

/-- Witness for C8 (amended) at the fixture map and the cross-origin
target, whose canonical form is itself and has length at least two. -/
theorem c8_amended_witness :
    getIntegrityValue c8Map (str "https://other.com/lib.js") =
      getIntegrityValueAmendedC8 c8Map (str "https://other.com/lib.js") :=
  (c8_amended_two_character_drop c8Map (str "https://other.com/lib.js")
    (str "https://other.com/lib.js") (by decide) (by decide)).1

end ImportMapGo
